import Mathlib

/-!
Shallow embedding of the `StatusCode` codec (`src/status_code.rs`) and the
`Operation` record (`src/operation.rs`) of the `openapiv3` crate, with proofs
of the decode/encode/ordering contract.

Rust strings are modelled as lists of Unicode scalar values (`RStr`);
`asBytes` is the UTF-8 encoding, so that the byte-level Rust operations
(`str::len`, `str::as_bytes`, `str::is_ascii`) are modelled exactly.
-/

namespace OpenApiV3

/-- `enum StatusCode \x7b Code(u16), Range(u16) \x7d`. -/
inductive StatusCode where
  | Code : Nat → StatusCode
  | Range : Nat → StatusCode
deriving DecidableEq, Repr

/-- A Rust string, as its sequence of Unicode scalar values (Rust `char`s). -/
abbrev RStr := List Nat

/-- Number of characters of a Rust string (`str::chars().count()`). -/
def charLen (s : RStr) : Nat := s.length

/-- UTF-8 encoding of one Unicode scalar value. -/
def utf8Bytes (c : Nat) : List Nat :=
  if c < 128 then [c]
  else if c < 2048 then [192 + c / 64, 128 + c % 64]
  else if c < 65536 then [224 + c / 4096, 128 + c / 64 % 64, 128 + c % 64]
  else [240 + c / 262144, 128 + c / 4096 % 64, 128 + c / 64 % 64, 128 + c % 64]

/-- `str::as_bytes`: the UTF-8 bytes of the string. -/
def asBytes (s : RStr) : List Nat := (s.map utf8Bytes).flatten

/-- `str::len`: the length of the string in BYTES (not characters). -/
def rustLen (s : RStr) : Nat := (asBytes s).length

/-- `u8::is_ascii_digit`. -/
def isAsciiDigit (b : Nat) : Bool := 48 ≤ b && b ≤ 57

/-- Numeric value of a big-endian list of ASCII digit bytes. -/
def digitsValue (bs : List Nat) : Nat := bs.foldl (fun a b => a * 10 + (b - 48)) 0

/-- One-or-more ASCII digits, as in integer `FromStr`. -/
def parseDigits (bs : List Nat) : Option Nat :=
  if bs ≠ [] && bs.all isAsciiDigit then some (digitsValue bs) else none

def i64Max : Nat := 9223372036854775807

/-- Digit part of `i64::from_str` for a non-negative number. -/
def parsePosDigits (bs : List Nat) : Option Int :=
  (parseDigits bs).bind fun n => if n ≤ i64Max then some (n : Int) else none

/-- Digit part of `i64::from_str` after a leading minus sign. -/
def parseNegDigits (bs : List Nat) : Option Int :=
  (parseDigits bs).bind fun n => if n ≤ i64Max + 1 then some (-(n : Int)) else none

/-- `str::parse::<i64>`: optional ASCII sign then one or more ASCII digits,
within the `i64` bounds. -/
def parseI64 (s : RStr) : Option Int :=
  match asBytes s with
  | [] => none
  | b :: rest =>
    if b = 43 then parsePosDigits rest
    else if b = 45 then parseNegDigits rest
    else parsePosDigits (b :: rest)

/-- `serde::de::Unexpected`, restricted to the variants the codec builds. -/
inductive Unexpected where
  | Signed : Int → Unexpected
  | Unsigned : Nat → Unexpected
  | Str : RStr → Unexpected
deriving DecidableEq, Repr

/-- `serde::de::Error::invalid_value(unexp, &exp)`: the offending raw value
together with the expectation message. -/
structure DecodeError where
  unexp : Unexpected
  expected : String
deriving DecidableEq, Repr

deriving instance DecidableEq for Except

/-- The `expecting` message of `StatusCodeVisitor`. -/
def expectingMsg : String :=
  "number between 100 and 999 (as string or integer) or a string that matches `\\dXX`"

/-- How serde renders an `Unexpected` into the error message: `Signed` and
`Unsigned` both display as the bare integer. -/
inductive RawValue where
  | int : Int → RawValue
  | str : RStr → RawValue
deriving DecidableEq, Repr

def Unexpected.render : Unexpected → RawValue
  | .Signed i => .int i
  | .Unsigned u => .int u
  | .Str s => .str s

/-- Spec taxonomy: a WrongLength error. -/
def DecodeError.isWrongLength (e : DecodeError) : Bool := e.expected == "length 3"

/-- Spec taxonomy: an InvalidFormat error. -/
def DecodeError.isInvalidFormat (e : DecodeError) : Bool :=
  e.expected == "ascii, format `\\dXX`" || e.expected == "format `\\dXX`"

/-- Spec taxonomy: an OutOfRange error (numeric value outside the bound). -/
def DecodeError.isOutOfRange (e : DecodeError) : Bool :=
  (e.expected == expectingMsg) &&
    (match e.unexp with
     | .Signed _ => true
     | .Unsigned _ => true
     | .Str _ => false)

/-- `StatusCodeVisitor::visit_i64`. -/
def visit_i64 (value : Int) : Except DecodeError StatusCode :=
  if 100 ≤ value ∧ value < 1000 then .ok (.Code (value.toNat % 65536))
  else .error ⟨.Signed value, expectingMsg⟩

/-- `StatusCodeVisitor::visit_u64`. -/
def visit_u64 (value : Nat) : Except DecodeError StatusCode :=
  if 100 ≤ value ∧ value < 1000 then .ok (.Code (value % 65536))
  else .error ⟨.Unsigned value, expectingMsg⟩

/-- `u8::to_ascii_uppercase`. -/
def toAsciiUpper (b : Nat) : Nat := if 97 ≤ b ∧ b ≤ 122 then b - 32 else b

/-- `StatusCodeVisitor::visit_str`. -/
def visit_str (value : RStr) : Except DecodeError StatusCode :=
  if rustLen value ≠ 3 then .error ⟨.Str value, "length 3"⟩
  else
    match parseI64 value with
    | some number => visit_i64 number
    | none =>
      if (asBytes value).all (fun b => b < 128) then
        match (asBytes value).map toAsciiUpper with
        | [n, x1, x2] =>
          if isAsciiDigit n = true ∧ x1 = 88 ∧ x2 = 88 then .ok (.Range (n - 48))
          else .error ⟨.Str value, "format `\\dXX`"⟩
        | _ => .error ⟨.Str value, "format `\\dXX`"⟩
      else .error ⟨.Str value, "ascii, format `\\dXX`"⟩

/-- An untyped document node presented to `deserialize_any`. -/
inductive Node where
  | int : Int → Node
  | str : RStr → Node
deriving DecidableEq, Repr

/-- `Deserialize for StatusCode`: `deserialize_any` dispatches integer nodes to
`visit_u64` (non-negative) or `visit_i64` (negative), strings to `visit_str`. -/
def decode : Node → Except DecodeError StatusCode
  | .int i => if i < 0 then visit_i64 i else visit_u64 i.toNat
  | .str s => visit_str s

/-- Decimal digits (as ASCII byte values) of `n`, fuel-structured. -/
def natDigitsAux : Nat → Nat → List Nat → List Nat
  | 0, _, acc => acc
  | fuel + 1, n, acc =>
    if n < 10 then (48 + n) :: acc
    else natDigitsAux fuel (n / 10) ((48 + n % 10) :: acc)

/-- Decimal representation of `n`, as the Rust `Display` formatting of unsigned integers. -/
def natDigits (n : Nat) : List Nat := natDigitsAux (n + 1) n []

/-- `impl fmt::Display for StatusCode`. -/
def StatusCode.display : StatusCode → RStr
  | .Code n => natDigits n
  | .Range n => natDigits n ++ [88, 88]

/-- `impl Serialize for StatusCode`: `serialize_str(&self.to_string())`. -/
def encode (sc : StatusCode) : Node := .str sc.display

/-- A `StatusCode` the spec calls well-formed. -/
def WellFormed : StatusCode → Prop
  | .Code n => 100 ≤ n ∧ n ≤ 999
  | .Range d => d ≤ 9

/-- Discriminant of the enum, in declaration order. -/
def StatusCode.tag : StatusCode → Nat
  | .Code _ => 0
  | .Range _ => 1

/-- Numeric payload of either variant. -/
def StatusCode.payload : StatusCode → Nat
  | .Code n => n
  | .Range n => n

/-- `derive(Ord)`: compare the variant tags in declaration order, then the
payloads. -/
def StatusCode.cmp : StatusCode → StatusCode → Ordering
  | .Code m, .Code n => compare m n
  | .Code _, .Range _ => .lt
  | .Range _, .Code _ => .gt
  | .Range m, .Range n => compare m n

/-- The strict order induced by `derive(Ord)`. -/
def StatusCode.lt (a b : StatusCode) : Bool := a.cmp b == Ordering.lt

/-- `derive(Hash)` feeds the discriminant and then the payload to the hasher;
the hash input stream is modelled as that pair. -/
def StatusCode.hashInput (sc : StatusCode) : Nat × Nat := (sc.tag, sc.payload)

/-- An untyped payload node for the fields of the `Operation` record
(`src/operation.rs`); the nested type of each field is left abstract here,
except that `Vec` fields must decode from a sequence node. -/
inductive Val where
  | arr : List Val → Val
  | atom : Nat → Val

/-- An input mapping (document object) for the `Operation` record. -/
abbrev FieldMap := List (String × Val)

/-- Look a key up in the input mapping. -/
def getField (m : FieldMap) (k : String) : Option Val :=
  (m.find? (fun kv => kv.1 == k)).map (fun kv => kv.2)

def Val.asArr : Val → Option (List Val)
  | .arr xs => some xs
  | .atom _ => none

/-- Decode of a `#[serde(default)] Vec` field: a missing key yields the empty
vector, a present key must hold a sequence. -/
def decodeVecField (m : FieldMap) (k : String) : Option (List Val) :=
  match getField m k with
  | none => some []
  | some v => v.asArr

/-- `struct Operation`, with `#[serde(rename_all = "camelCase")]`. -/
structure Operation where
  tags : List Val
  summary : Option Val
  description : Option Val
  external_documentation : Option Val
  operation_id : Option Val
  parameters : List Val
  request_body : Option Val
  responses : Val

/-- Derived `Deserialize for Operation`: `Option` fields default to `None`
when their key is missing, `#[serde(default)] Vec` fields to the empty vector,
and the required `responses` field must be present. -/
def Operation.decodeMap (m : FieldMap) : Option Operation := do
  let tags ← decodeVecField m "tags"
  let parameters ← decodeVecField m "parameters"
  let responses ← getField m "responses"
  some ⟨tags, getField m "summary", getField m "description",
    getField m "externalDocumentation", getField m "operationId",
    parameters, getField m "requestBody", responses⟩

/-- Contribution of one optional field to the encoded mapping
(`skip_serializing_if = "Option::is_none"`). -/
def optFieldEnc (k : String) : Option Val → FieldMap
  | none => []
  | some v => [(k, v)]

/-- Contribution of one `Vec` field to the encoded mapping
(`skip_serializing_if = "Vec::is_empty"`). -/
def vecFieldEnc (k : String) (vs : List Val) : FieldMap :=
  if vs.isEmpty then [] else [(k, Val.arr vs)]

/-- Derived `Serialize for Operation`: fields in declaration order, absent and
empty fields skipped. -/
def Operation.encodeMap (op : Operation) : FieldMap :=
  vecFieldEnc "tags" op.tags ++
  optFieldEnc "summary" op.summary ++
  optFieldEnc "description" op.description ++
  optFieldEnc "externalDocumentation" op.external_documentation ++
  optFieldEnc "operationId" op.operation_id ++
  vecFieldEnc "parameters" op.parameters ++
  optFieldEnc "requestBody" op.request_body ++
  [("responses", op.responses)]

/-- The set of keys an encoded `Operation` mapping carries. -/
def encodedKeys (op : Operation) : List String := op.encodeMap.map (fun kv => kv.1)

/-! ## Helper lemmas about UTF-8 and parsing -/

theorem asBytes_cons (c : Nat) (t : RStr) : asBytes (c :: t) = utf8Bytes c ++ asBytes t := by
  simp [asBytes]

theorem utf8Bytes_of_ascii (c : Nat) (h : c < 128) : utf8Bytes c = [c] := by
  simp [utf8Bytes, h]

theorem asBytes_of_ascii (s : RStr) (h : ∀ c ∈ s, c < 128) : asBytes s = s := by
  induction s with
  | nil => rfl
  | cons c t ih =>
    rw [asBytes_cons, utf8Bytes_of_ascii c (h c (by simp)), ih (fun x hx => h x (by simp [hx]))]
    rfl

theorem utf8Bytes_of_nonascii (c : Nat) (h : 128 ≤ c) : ∃ b ∈ utf8Bytes c, 128 ≤ b := by
  unfold utf8Bytes
  rw [if_neg (by omega)]
  by_cases h2 : c < 2048
  · rw [if_pos h2]
    exact ⟨192 + c / 64, by simp, by omega⟩
  · rw [if_neg h2]
    by_cases h3 : c < 65536
    · rw [if_pos h3]
      exact ⟨224 + c / 4096, by simp, by omega⟩
    · rw [if_neg h3]
      exact ⟨240 + c / 262144, by simp, by omega⟩

theorem ascii_of_asBytes (s : RStr) (h : (asBytes s).all (fun b => b < 128) = true) :
    ∀ c ∈ s, c < 128 := by
  induction s with
  | nil => simp
  | cons c t ih =>
    rw [asBytes_cons, List.all_append, Bool.and_eq_true] at h
    intro x hx
    rcases List.mem_cons.mp hx with rfl | hx
    · by_contra hc
      obtain ⟨b, hb, hge⟩ := utf8Bytes_of_nonascii x (by omega)
      have := List.all_eq_true.mp h.1 b hb
      simp at this
      omega
    · exact ih h.2 x hx

theorem rustLen_of_ascii (s : RStr) (h : ∀ c ∈ s, c < 128) : rustLen s = charLen s := by
  rw [rustLen, asBytes_of_ascii s h]
  rfl

theorem parseDigits_all_digits (bs : List Nat) (n : Nat) (h : parseDigits bs = some n) :
    bs ≠ [] ∧ bs.all isAsciiDigit = true := by
  by_cases h1 : bs = []
  · subst h1
    simp [parseDigits] at h
  · by_cases h2 : bs.all isAsciiDigit = true
    · exact ⟨h1, h2⟩
    · exfalso
      simp [parseDigits, h1, h2] at h

theorem parsePosDigits_all_digits (bs : List Nat) (n : Int) (h : parsePosDigits bs = some n) :
    bs ≠ [] ∧ bs.all isAsciiDigit = true := by
  unfold parsePosDigits at h
  cases hp : parseDigits bs with
  | none => rw [hp] at h; simp at h
  | some m => exact parseDigits_all_digits bs m hp

theorem parseNegDigits_all_digits (bs : List Nat) (n : Int) (h : parseNegDigits bs = some n) :
    bs ≠ [] ∧ bs.all isAsciiDigit = true := by
  unfold parseNegDigits at h
  cases hp : parseDigits bs with
  | none => rw [hp] at h; simp at h
  | some m => exact parseDigits_all_digits bs m hp

theorem digits_all_ascii (bs : List Nat) (h : bs.all isAsciiDigit = true) :
    bs.all (fun b => b < 128) = true := by
  rw [List.all_eq_true] at h ⊢
  intro x hx
  have := h x hx
  simp [isAsciiDigit] at this
  simp
  omega

theorem parseI64_bytes_ascii (s : RStr) (n : Int) (h : parseI64 s = some n) :
    (asBytes s).all (fun b => b < 128) = true := by
  unfold parseI64 at h
  cases hb : asBytes s with
  | nil => rw [hb] at h; simp at h
  | cons b rest =>
    rw [hb] at h
    simp only at h
    by_cases h43 : b = 43
    · rw [if_pos h43] at h
      have := digits_all_ascii rest (parsePosDigits_all_digits rest n h).2
      simp [this]
      omega
    · rw [if_neg h43] at h
      by_cases h45 : b = 45
      · rw [if_pos h45] at h
        have := digits_all_ascii rest (parseNegDigits_all_digits rest n h).2
        simp [this]
        omega
      · rw [if_neg h45] at h
        exact digits_all_ascii _ (parsePosDigits_all_digits _ n h).2

theorem parseI64_chars_ascii (s : RStr) (n : Int) (h : parseI64 s = some n) :
    ∀ c ∈ s, c < 128 :=
  ascii_of_asBytes s (parseI64_bytes_ascii s n h)

/-! ## Claim theorems -/

/-- Claim C1 (amended): the length check of `visit_str` is over UTF-8 BYTES,
not characters: every string whose byte length is not exactly 3 fails with
the WrongLength error, regardless of content. -/
theorem decode_wrong_byte_length (s : RStr) (h : rustLen s ≠ 3) :
    decode (.str s) = .error ⟨.Str s, "length 3"⟩ := by
  simp [decode, visit_str, h]

theorem decode_wrong_byte_length_witness :
    rustLen [97, 98] ≠ 3 ∧ decode (.str [97, 98]) = .error ⟨.Str [97, 98], "length 3"⟩ :=
  ⟨by decide, decode_wrong_byte_length [97, 98] (by decide)⟩

/-- Claim C1 counterexample: the two-character string "é2" (code points
`[233, 50]`, three UTF-8 bytes) does not fail with WrongLength as the claim
demands; it passes the length check and fails with the ascii InvalidFormat
error instead. -/
theorem char_length_claim_cex :
    charLen [233, 50] = 2 ∧
    decode (.str [233, 50]) = .error ⟨.Str [233, 50], "ascii, format `\\dXX`"⟩ ∧
    DecodeError.isWrongLength ⟨.Str [233, 50], "ascii, format `\\dXX`"⟩ = false := by
  decide

/-- Claim C2 (amended): a string of UTF-8 BYTE length 3 (not character
length) that does not parse as a base-10 integer and is not pure ASCII fails
with the ascii InvalidFormat error, not WrongLength. -/
theorem decode_nonascii_invalid_format (s : RStr) (h3 : rustLen s = 3)
    (hp : parseI64 s = none) (ha : (asBytes s).all (fun b => b < 128) = false) :
    decode (.str s) = .error ⟨.Str s, "ascii, format `\\dXX`"⟩ := by
  simp [decode, visit_str, h3, hp, ha]

theorem decode_nonascii_invalid_format_witness :
    decode (.str [233, 50]) = .error ⟨.Str [233, 50], "ascii, format `\\dXX`"⟩ :=
  decode_nonascii_invalid_format [233, 50] (by decide) (by decide) (by decide)

/-- Claim C2 counterexample: the three-character non-ASCII string "é23"
(code points `[233, 50, 51]`, four UTF-8 bytes) does not reach the ASCII
check: it fails with WrongLength, not InvalidFormat, contradicting the claim
as stated over character counts. -/
theorem nonascii_char_claim_cex :
    charLen [233, 50, 51] = 3 ∧ parseI64 [233, 50, 51] = none ∧
    (asBytes [233, 50, 51]).all (fun b => b < 128) = false ∧
    decode (.str [233, 50, 51]) = .error ⟨.Str [233, 50, 51], "length 3"⟩ ∧
    DecodeError.isInvalidFormat ⟨.Str [233, 50, 51], "length 3"⟩ = false := by
  decide

set_option maxRecDepth 100000 in
theorem code_roundtrip_bounded : ∀ n : Fin 1000, 100 ≤ n.val →
    visit_str (StatusCode.display (.Code n.val)) = .ok (.Code n.val) := by
  decide

theorem range_roundtrip_bounded : ∀ d : Fin 10,
    visit_str (StatusCode.display (.Range d.val)) = .ok (.Range d.val) := by
  decide

/-- Claim C3: round-trip law — decoding the encoded form of any well-formed
`StatusCode` succeeds and returns the same value. -/
theorem decode_encode_roundtrip (v : StatusCode) (h : WellFormed v) :
    decode (encode v) = .ok v := by
  cases v with
  | Code n =>
    obtain ⟨h1, h2⟩ := h
    exact code_roundtrip_bounded ⟨n, by omega⟩ h1
  | Range d =>
    have hd : d ≤ 9 := h
    exact range_roundtrip_bounded ⟨d, by omega⟩

theorem decode_encode_roundtrip_witness :
    decode (encode (.Range 4)) = .ok (.Range 4) :=
  decode_encode_roundtrip (.Range 4) (by show (4 : Nat) ≤ 9; omega)

/-- Claim C4: an integer input decodes to `Code value` exactly when
`100 ≤ value ≤ 999`; any integer outside that range fails with an OutOfRange
error carrying the offending value. -/
theorem decode_int_bounds (i : Int) :
    (100 ≤ i ∧ i ≤ 999 → decode (.int i) = .ok (.Code i.toNat)) ∧
    (¬(100 ≤ i ∧ i ≤ 999) → ∃ e, decode (.int i) = .error e ∧ e.isOutOfRange = true) := by
  constructor
  · rintro ⟨h1, h2⟩
    have h0 : ¬ i < 0 := by omega
    have hr : 100 ≤ i.toNat ∧ i.toNat < 1000 := by omega
    have hm : i.toNat % 65536 = i.toNat := Nat.mod_eq_of_lt (by omega)
    simp [decode, h0, visit_u64, hr, hm]
  · intro h
    by_cases h0 : i < 0
    · refine ⟨⟨.Signed i, expectingMsg⟩, ?_, by simp [DecodeError.isOutOfRange]⟩
      have hno : ¬ (100 ≤ i ∧ i < 1000) := by omega
      simp [decode, h0, visit_i64, hno]
    · refine ⟨⟨.Unsigned i.toNat, expectingMsg⟩, ?_, by simp [DecodeError.isOutOfRange]⟩
      have hno : ¬ (100 ≤ i.toNat ∧ i.toNat < 1000) := by omega
      simp [decode, h0, visit_u64, hno]

theorem decode_int_bounds_witness :
    decode (.int 100) = .ok (.Code 100) ∧
    (∃ e, decode (.int 1000) = .error e ∧ e.isOutOfRange = true) :=
  ⟨(decode_int_bounds 100).1 (by decide), (decode_int_bounds 1000).2 (by decide)⟩

/-- Claim C5: a 3-character pure-ASCII string that does not parse as an
integer decodes to `Range d` exactly when, after ASCII upper-casing, the
first byte is the ASCII digit of `d` and the other two bytes are `X`; every
other such string fails with the pattern InvalidFormat error. -/
theorem decode_wildcard_pattern (a b c : Nat) (ha : a < 128) (hb : b < 128) (hc : c < 128)
    (hp : parseI64 [a, b, c] = none) :
    (∀ d : Nat, decode (.str [a, b, c]) = .ok (.Range d) ↔
      (toAsciiUpper a = 48 + d ∧ d ≤ 9 ∧ toAsciiUpper b = 88 ∧ toAsciiUpper c = 88)) ∧
    (¬(isAsciiDigit (toAsciiUpper a) = true ∧ toAsciiUpper b = 88 ∧ toAsciiUpper c = 88) →
      decode (.str [a, b, c]) = .error ⟨.Str [a, b, c], "format `\\dXX`"⟩) := by
  have hbytes : asBytes [a, b, c] = [a, b, c] := by
    refine asBytes_of_ascii _ ?_
    intro x hx
    simp at hx
    rcases hx with rfl | rfl | rfl <;> omega
  have hlen : rustLen [a, b, c] = 3 := by rw [rustLen, hbytes]; rfl
  have hall : (asBytes [a, b, c]).all (fun x => x < 128) = true := by
    rw [hbytes]
    simp [ha, hb, hc]
  have hdec : decode (.str [a, b, c]) =
      (if isAsciiDigit (toAsciiUpper a) = true ∧ toAsciiUpper b = 88 ∧ toAsciiUpper c = 88
       then .ok (.Range (toAsciiUpper a - 48))
       else .error ⟨.Str [a, b, c], "format `\\dXX`"⟩) := by
    simp [decode, visit_str, hlen, hp, hall, hbytes]
    intro himp
    exact absurd (himp ha hb) (by omega)
  constructor
  · intro d
    constructor
    · intro h
      rw [hdec] at h
      by_cases hcase : isAsciiDigit (toAsciiUpper a) = true ∧ toAsciiUpper b = 88 ∧ toAsciiUpper c = 88
      · rw [if_pos hcase] at h
        have hdig : 48 ≤ toAsciiUpper a ∧ toAsciiUpper a ≤ 57 := by
          have := hcase.1
          simp [isAsciiDigit] at this
          omega
        have hval : toAsciiUpper a - 48 = d := by
          have := h
          simp at this
          exact this
        exact ⟨by omega, by omega, hcase.2.1, hcase.2.2⟩
      · rw [if_neg hcase] at h
        cases h
    · rintro ⟨e1, e2, e3, e4⟩
      have hcase : isAsciiDigit (toAsciiUpper a) = true ∧ toAsciiUpper b = 88 ∧ toAsciiUpper c = 88 := by
        refine ⟨?_, e3, e4⟩
        simp [isAsciiDigit]
        omega
      rw [hdec, if_pos hcase]
      simp
      omega
  · intro hneg
    rw [hdec, if_neg hneg]

theorem decode_wildcard_pattern_witness :
    decode (.str [52, 120, 120]) = .ok (.Range 4) := by
  have h := decode_wildcard_pattern 52 120 120 (by decide) (by decide) (by decide) (by decide)
  exact (h.1 4).mpr (by decide)

set_option maxRecDepth 100000 in
theorem natDigits_three_digit : ∀ n : Fin 1000, 100 ≤ n.val →
    natDigits n.val = [48 + n.val / 100, 48 + n.val / 10 % 10, 48 + n.val % 10] := by
  decide

theorem natDigits_single_digit : ∀ d : Fin 10, natDigits d.val = [48 + d.val] := by
  decide

/-- Claim C6: encoding is a pure total function — `Code n` encodes to the
three decimal digits of `n`, `Range d` to the digit of `d` followed by two
uppercase `X` (code point 88), and the output node is always a string, never
a bare integer. -/
theorem encode_canonical (v : StatusCode) (h : WellFormed v) :
    encode v = .str v.display ∧
    (∀ n, v = .Code n →
      v.display = [48 + n / 100, 48 + n / 10 % 10, 48 + n % 10] ∧
      charLen v.display = 3 ∧ (v.display).all isAsciiDigit = true) ∧
    (∀ d, v = .Range d → v.display = [48 + d, 88, 88]) ∧
    (∀ i : Int, encode v ≠ .int i) := by
  refine ⟨rfl, ?_, ?_, ?_⟩
  · rintro n rfl
    obtain ⟨h1, h2⟩ := h
    have hd := natDigits_three_digit ⟨n, by omega⟩ h1
    have hdisp : StatusCode.display (.Code n) = [48 + n / 100, 48 + n / 10 % 10, 48 + n % 10] := by
      simpa [StatusCode.display] using hd
    refine ⟨hdisp, by rw [hdisp]; rfl, ?_⟩
    rw [hdisp]
    have d1 : n / 100 ≤ 9 := by omega
    have d2 : n / 10 % 10 ≤ 9 := by omega
    have d3 : n % 10 ≤ 9 := by omega
    simp [isAsciiDigit]
    omega
  · rintro d rfl
    have hd9 : d ≤ 9 := h
    have hd := natDigits_single_digit ⟨d, by omega⟩
    have hd2 : natDigits d = [48 + d] := by simpa using hd
    simp [StatusCode.display, hd2]
  · rintro i hcontra
    simp [encode] at hcontra

theorem encode_canonical_witness :
    StatusCode.display (.Code 207) = [50, 48, 55] := by
  have h := (encode_canonical (.Code 207) (by show 100 ≤ 207 ∧ 207 ≤ 999; omega)).2.1 207 rfl
  exact h.1

/-- Claim C7: a 3-character string that parses wholly as a base-10 integer
`n` decodes to exactly the same result as the bare integer `n`: the same
value on success, and on failure an error carrying the same rendered raw
value, the same expectation message and the same OutOfRange classification. -/
theorem decode_str_int_agree (s : RStr) (n : Int) (h3 : charLen s = 3)
    (hp : parseI64 s = some n) :
    (∀ v, decode (.str s) = .ok v ↔ decode (.int n) = .ok v) ∧
    (∀ e1 e2, decode (.str s) = .error e1 → decode (.int n) = .error e2 →
      e1.unexp.render = e2.unexp.render ∧ e1.expected = e2.expected ∧
      e1.isOutOfRange = e2.isOutOfRange) := by
  have hascii := parseI64_chars_ascii s n hp
  have hlen : rustLen s = 3 := by rw [rustLen_of_ascii s hascii]; exact h3
  have hstr : decode (.str s) = visit_i64 n := by simp [decode, visit_str, hlen, hp]
  rw [hstr]
  by_cases hneg : n < 0
  · have hint : decode (.int n) = visit_i64 n := by simp [decode, hneg]
    rw [hint]
    exact ⟨fun v => Iff.rfl,
      fun e1 e2 h1 h2 => by rw [h1] at h2; cases h2; exact ⟨rfl, rfl, rfl⟩⟩
  · have hint : decode (.int n) = visit_u64 n.toNat := by simp [decode, hneg]
    rw [hint]
    by_cases hin : 100 ≤ n ∧ n < 1000
    · have e1 : visit_i64 n = .ok (.Code (n.toNat % 65536)) := by simp [visit_i64, hin]
      have e2 : visit_u64 n.toNat = .ok (.Code (n.toNat % 65536)) := by
        have : 100 ≤ n.toNat ∧ n.toNat < 1000 := by omega
        simp [visit_u64, this]
      rw [e1, e2]
      exact ⟨fun v => Iff.rfl, fun a b h1 h2 => by cases h1⟩
    · have hin2 : ¬ (100 ≤ n.toNat ∧ n.toNat < 1000) := by omega
      have e1 : visit_i64 n = .error ⟨.Signed n, expectingMsg⟩ := by simp [visit_i64, hin]
      have e2 : visit_u64 n.toNat = .error ⟨.Unsigned n.toNat, expectingMsg⟩ := by
        simp [visit_u64, hin2]
      rw [e1, e2]
      refine ⟨fun v => by simp, fun a b h1 h2 => ?_⟩
      cases h1
      cases h2
      refine ⟨?_, rfl, rfl⟩
      simp [Unexpected.render]
      omega

theorem decode_str_int_agree_witness :
    decode (.str [50, 48, 48]) = .ok (.Code 200) ↔ decode (.int 200) = .ok (.Code 200) :=
  (decode_str_int_agree [50, 48, 48] 200 (by decide) (by decide)).1 (.Code 200)

theorem ordering_beq_lt (o : Ordering) : (o == Ordering.lt) = true ↔ o = Ordering.lt := by
  cases o <;> decide

theorem lt_characterization (a b : StatusCode) :
    a.lt b = true ↔ (a.tag < b.tag ∨ (a.tag = b.tag ∧ a.payload < b.payload)) := by
  cases a <;> cases b <;>
    simp [StatusCode.lt, StatusCode.cmp, StatusCode.tag, StatusCode.payload,
      ordering_beq_lt, Nat.compare_eq_lt]

theorem eq_characterization (a b : StatusCode) :
    a = b ↔ (a.tag = b.tag ∧ a.payload = b.payload) := by
  cases a <;> cases b <;>
    simp [StatusCode.tag, StatusCode.payload]

/-- Claim C8: equality, ordering and hashing are consistent over the full
discriminated value: equal values have equal hash input; the derived order is
a strict total order (irreflexive, transitive, antisymmetric, total)
determined by the variant tag first and then by the payload; and
`Code 200 ≠ Range 2`. -/
theorem ord_hash_contract :
    (∀ a b : StatusCode, a = b → a.hashInput = b.hashInput) ∧
    (∀ a : StatusCode, a.lt a = false) ∧
    (∀ a b c : StatusCode, a.lt b = true → b.lt c = true → a.lt c = true) ∧
    (∀ a b : StatusCode, a.lt b = true → b.lt a = false) ∧
    (∀ a b : StatusCode, a ≠ b → a.lt b = true ∨ b.lt a = true) ∧
    (∀ a b : StatusCode, a.lt b = true ↔
      (a.tag < b.tag ∨ (a.tag = b.tag ∧ a.payload < b.payload))) ∧
    StatusCode.Code 200 ≠ StatusCode.Range 2 := by
  refine ⟨fun a b h => by rw [h], ?_, ?_, ?_, ?_, lt_characterization, by decide⟩
  · intro a
    rw [Bool.eq_false_iff]
    intro h
    have := (lt_characterization a a).mp h
    omega
  · intro a b c h1 h2
    have k1 := (lt_characterization a b).mp h1
    have k2 := (lt_characterization b c).mp h2
    exact (lt_characterization a c).mpr (by omega)
  · intro a b h1
    have k1 := (lt_characterization a b).mp h1
    rw [Bool.eq_false_iff]
    intro h2
    have k2 := (lt_characterization b a).mp h2
    omega
  · intro a b hne
    have k := (eq_characterization a b).not.mp hne
    by_cases ht : a.tag = b.tag
    · by_cases hp : a.payload < b.payload
      · exact Or.inl ((lt_characterization a b).mpr (Or.inr ⟨ht, hp⟩))
      · have hp2 : b.payload < a.payload := by
          rcases Nat.lt_trichotomy a.payload b.payload with h | h | h
          · omega
          · exact absurd ⟨ht, h⟩ k
          · exact h
        exact Or.inr ((lt_characterization b a).mpr (Or.inr ⟨ht.symm, hp2⟩))
    · by_cases htl : a.tag < b.tag
      · exact Or.inl ((lt_characterization a b).mpr (Or.inl htl))
      · exact Or.inr ((lt_characterization b a).mpr (Or.inl (by omega)))

theorem ord_hash_contract_witness :
    StatusCode.lt (.Code 100) (.Code 999) = true :=
  ord_hash_contract.2.2.1 (.Code 100) (.Code 200) (.Code 999) (by decide) (by decide)

/-- Claim C10: a 3-character string of an ASCII sign (`+` is 43, `-` is 45)
followed by two ASCII digits parses as a signed integer of magnitude at most
99, is sent through the integer bound check, and therefore fails with the
OutOfRange numeric error — not WrongLength and not InvalidFormat. -/
theorem decode_signed_short_numeric (s d1 d2 : Nat) (hs : s = 43 ∨ s = 45)
    (h1 : isAsciiDigit d1 = true) (h2 : isAsciiDigit d2 = true) :
    ∃ n : Int, parseI64 [s, d1, d2] = some n ∧ -99 ≤ n ∧ n ≤ 99 ∧
      decode (.str [s, d1, d2]) = .error ⟨.Signed n, expectingMsg⟩ ∧
      DecodeError.isOutOfRange ⟨.Signed n, expectingMsg⟩ = true ∧
      DecodeError.isWrongLength ⟨.Signed n, expectingMsg⟩ = false ∧
      DecodeError.isInvalidFormat ⟨.Signed n, expectingMsg⟩ = false := by
  simp only [isAsciiDigit, Bool.and_eq_true, decide_eq_true_eq] at h1 h2
  have hbytes : asBytes [s, d1, d2] = [s, d1, d2] := by
    refine asBytes_of_ascii _ ?_
    intro x hx
    simp at hx
    rcases hx with rfl | rfl | rfl <;> omega
  have hlen3 : rustLen [s, d1, d2] = 3 := by rw [rustLen, hbytes]; rfl
  have hpd : parseDigits [d1, d2] = some (10 * (d1 - 48) + (d2 - 48)) := by
    have hc : ([d1, d2] ≠ [] && [d1, d2].all isAsciiDigit) = true := by
      simp [isAsciiDigit]
      omega
    rw [parseDigits, if_pos hc]
    simp [digitsValue]
    omega
  set m : Nat := 10 * (d1 - 48) + (d2 - 48) with hm
  have hm99 : m ≤ 99 := by omega
  rcases hs with rfl | rfl
  · have hpos : parsePosDigits [d1, d2] = some ((m : Int)) := by
      rw [parsePosDigits, hpd]
      have hle : m ≤ i64Max := by simp [i64Max]; omega
      simp [hle]
    have hp : parseI64 [43, d1, d2] = some ((m : Int)) := by
      rw [parseI64, hbytes]
      simp [hpos]
    have hno : ¬ (100 ≤ ((m : Int)) ∧ ((m : Int)) < 1000) := by omega
    refine ⟨(m : Int), hp, by omega, by omega, ?_, ?_, ?_, ?_⟩
    · simp [decode, visit_str, hlen3, hp, visit_i64, hno]
      omega
    · simp [DecodeError.isOutOfRange]
    · have hL : (expectingMsg == "length 3") = false := by decide
      simp [DecodeError.isWrongLength, hL]
    · have hF1 : (expectingMsg == "ascii, format `\\dXX`") = false := by decide
      have hF2 : (expectingMsg == "format `\\dXX`") = false := by decide
      simp [DecodeError.isInvalidFormat, hF1, hF2]
  · have hneg : parseNegDigits [d1, d2] = some (-(m : Int)) := by
      rw [parseNegDigits, hpd]
      have hle : m ≤ i64Max + 1 := by simp [i64Max]; omega
      simp [hle]
    have hp : parseI64 [45, d1, d2] = some (-(m : Int)) := by
      rw [parseI64, hbytes]
      simp [hneg]
    have hno : ¬ (100 ≤ (-(m : Int)) ∧ (-(m : Int)) < 1000) := by omega
    refine ⟨-(m : Int), hp, by omega, by omega, ?_, ?_, ?_, ?_⟩
    · simp [decode, visit_str, hlen3, hp, visit_i64, hno]
    · simp [DecodeError.isOutOfRange]
    · have hL : (expectingMsg == "length 3") = false := by decide
      simp [DecodeError.isWrongLength, hL]
    · have hF1 : (expectingMsg == "ascii, format `\\dXX`") = false := by decide
      have hF2 : (expectingMsg == "format `\\dXX`") = false := by decide
      simp [DecodeError.isInvalidFormat, hF1, hF2]

theorem decode_signed_short_numeric_witness :
    ∃ n : Int, parseI64 [43, 57, 57] = some n ∧ -99 ≤ n ∧ n ≤ 99 ∧
      decode (.str [43, 57, 57]) = .error ⟨.Signed n, expectingMsg⟩ ∧
      DecodeError.isOutOfRange ⟨.Signed n, expectingMsg⟩ = true ∧
      DecodeError.isWrongLength ⟨.Signed n, expectingMsg⟩ = false ∧
      DecodeError.isInvalidFormat ⟨.Signed n, expectingMsg⟩ = false :=
  decode_signed_short_numeric 43 57 57 (Or.inl rfl) (by decide) (by decide)

theorem exists_pair_vecFieldEnc (k kf : String) (vs : List Val) :
    (∃ x, (k, x) ∈ vecFieldEnc kf vs) ↔ (k = kf ∧ vs ≠ []) := by
  by_cases h : vs.isEmpty
  · have hv : vs = [] := List.isEmpty_iff.mp h
    subst hv
    simp [vecFieldEnc]
  · have hv : vs ≠ [] := by
      intro hc
      subst hc
      simp at h
    simp [vecFieldEnc, h, hv]

theorem exists_pair_optFieldEnc (k kf : String) (o : Option Val) :
    (∃ x, (k, x) ∈ optFieldEnc kf o) ↔ (k = kf ∧ o ≠ none) := by
  cases o <;> simp [optFieldEnc]

/-- Claim C9: every optional field of `Operation` decodes to its absent or
empty state when its key is missing from the input mapping, and the encoded
mapping carries the key of an optional field exactly when the field is non-absent
and non-empty (while the required `responses` key is always present). -/
theorem operation_field_presence :
    (∀ (m : FieldMap) (op : Operation), Operation.decodeMap m = some op →
      ((getField m "tags" = none → op.tags = []) ∧
       (getField m "summary" = none → op.summary = none) ∧
       (getField m "description" = none → op.description = none) ∧
       (getField m "externalDocumentation" = none → op.external_documentation = none) ∧
       (getField m "operationId" = none → op.operation_id = none) ∧
       (getField m "parameters" = none → op.parameters = []) ∧
       (getField m "requestBody" = none → op.request_body = none))) ∧
    (∀ op : Operation,
      (("tags" ∈ encodedKeys op) ↔ op.tags ≠ []) ∧
      (("summary" ∈ encodedKeys op) ↔ op.summary ≠ none) ∧
      (("description" ∈ encodedKeys op) ↔ op.description ≠ none) ∧
      (("externalDocumentation" ∈ encodedKeys op) ↔ op.external_documentation ≠ none) ∧
      (("operationId" ∈ encodedKeys op) ↔ op.operation_id ≠ none) ∧
      (("parameters" ∈ encodedKeys op) ↔ op.parameters ≠ []) ∧
      (("requestBody" ∈ encodedKeys op) ↔ op.request_body ≠ none) ∧
      ("responses" ∈ encodedKeys op)) := by
  constructor
  · intro m op h
    cases h1 : decodeVecField m "tags" with
    | none => simp [Operation.decodeMap, h1] at h
    | some tags =>
      cases h2 : decodeVecField m "parameters" with
      | none => simp [Operation.decodeMap, h1, h2] at h
      | some params =>
        cases h3 : getField m "responses" with
        | none => simp [Operation.decodeMap, h1, h2, h3] at h
        | some resp =>
          simp [Operation.decodeMap, h1, h2, h3] at h
          subst h
          refine ⟨?_, fun hn => hn, fun hn => hn, fun hn => hn, fun hn => hn, ?_, fun hn => hn⟩
          · intro hnone
            have he : decodeVecField m "tags" = some [] := by simp [decodeVecField, hnone]
            rw [h1] at he
            exact Option.some.inj he
          · intro hnone
            have he : decodeVecField m "parameters" = some [] := by simp [decodeVecField, hnone]
            rw [h2] at he
            exact Option.some.inj he
  · intro op
    refine ⟨?_, ?_, ?_, ?_, ?_, ?_, ?_, ?_⟩ <;>
      simp [encodedKeys, Operation.encodeMap, List.mem_append,
        exists_pair_vecFieldEnc, exists_pair_optFieldEnc]

theorem operation_field_presence_witness :
    (⟨[], none, none, none, none, [], none, Val.atom 0⟩ : Operation).tags = [] :=
  ((operation_field_presence.1 [("responses", Val.atom 0)]
      ⟨[], none, none, none, none, [], none, Val.atom 0⟩ rfl).1) rfl

end OpenApiV3
